import Mathlib

/-!
Verification of the mozc dictionary predictor
(`src/prediction/dictionary_predictor.cc`).

Strings are modelled as `List Char`; `std::string::size()` (a UTF-8 byte
count) is modelled by `byteSize`, while `Util::CharsLen` (a character
count) is modelled by `List.length`.  External collaborators (the
connector, the segmenter, the suggestion filter, the dictionaries and
the static zero-query tables) are parameters of the embedded functions.
-/

namespace MozcPredictor

/-- Source: `std::string::size()`: the UTF-8 byte length of a string. -/
def byteSize (s : List Char) : Nat := (s.map Char.utf8Size).sum

/-- Source: `std::string::substr(n, size - n)`: drop the first `n` bytes.  The
predictor only ever calls this with `n` equal to the byte length of a
known prefix of the string, so the byte count always falls on a
character boundary. -/
def dropBytes : List Char → Nat → List Char
  | s, 0 => s
  | [], _ + 1 => []
  | c :: rest, n + 1 => dropBytes rest (n + 1 - c.utf8Size)

/-- Source: `Segments::RequestType`. -/
inductive RequestType where
  | conversion
  | suggestion
  | prediction
  | partSuggestion
  | partPrediction
  | reverseConversion
deriving DecidableEq, Repr

/-- The `DictionaryPredictor::PredictionTypes` bitset.  `NO_PREDICTION`
is the value with every bit clear. -/
structure PredictionTypes where
  unigram : Bool := false
  bigram : Bool := false
  realtime : Bool := false
  realtimeTop : Bool := false
  suffix : Bool := false
  english : Bool := false
  typingCorrection : Bool := false
deriving DecidableEq, Repr

/-- Source: `NO_PREDICTION`: the empty prediction-type bitset. -/
def PredictionTypes.noPrediction : PredictionTypes := {}

/-- The bitset holding exactly the `SUFFIX` bit (the emission stage
compares `result.types == SUFFIX` for the 20-entry suffix cap). -/
def PredictionTypes.suffixOnly : PredictionTypes := { suffix := true }

/-- Source: `Token::AttributesBitfield` (dictionary token attributes). -/
structure TokenAttributes where
  spellingCorrection : Bool := false
  userDictionary : Bool := false
deriving DecidableEq, Repr

/-- The `Segment::Candidate` attribute bits used by the predictor. -/
structure CandidateAttributes where
  spellingCorrection : Bool := false
  userDictionary : Bool := false
  typingCorrection : Bool := false
  realtimeConversion : Bool := false
  noVariantsExpansion : Bool := false
  noExtraDescription : Bool := false
  partKeyConsumed : Bool := false
  autoPartSuggestion : Bool := false
deriving DecidableEq, Repr

/-- The `Segment::Candidate` source-info bits for zero-query categories. -/
structure SourceInfo where
  zqNone : Bool := false
  zqNumberSuffix : Bool := false
  zqEmoticon : Bool := false
  zqEmoji : Bool := false
  zqBigram : Bool := false
  zqSuffix : Bool := false
deriving DecidableEq, Repr

/-- Source: `ZeroQueryType` of a zero-query table entry. -/
inductive ZeroQueryType where
  | none
  | numberSuffix
  | emoticon
  | emoji
  | bigram
  | suffix
deriving DecidableEq, Repr

/-- A dictionary `Token`. -/
structure Token where
  key : List Char := []
  value : List Char := []
  cost : Int := 0
  lid : Nat := 0
  rid : Nat := 0
  attributes : TokenAttributes := {}
deriving DecidableEq, Repr

/-- Source: `DictionaryPredictor::Result`: the internal candidate record. -/
structure Result where
  key : List Char := []
  value : List Char := []
  wcost : Int := 0
  cost : Int := 0
  lid : Nat := 0
  rid : Nat := 0
  types : PredictionTypes := {}
  candidateAttributes : CandidateAttributes := {}
  sourceInfo : SourceInfo := {}
  consumedKeySize : Nat := 0
  innerSegmentBoundary : List Nat := []
deriving DecidableEq, Repr

/-- Source: `Segment::Candidate` as written by the emission stage.  The
description string (a UI label) is not modelled. -/
structure Candidate where
  key : List Char := []
  value : List Char := []
  contentKey : List Char := []
  contentValue : List Char := []
  lid : Nat := 0
  rid : Nat := 0
  wcost : Int := 0
  cost : Int := 0
  attributes : CandidateAttributes := {}
  sourceInfo : SourceInfo := {}
  consumedKeySize : Nat := 0
  innerSegmentBoundary : List Nat := []
deriving DecidableEq, Repr

/-- Candidate 0 of the last history segment (the fields the predictor
reads from it).  `Option.none` models both "no history segment" and
"history segment without candidates": every caller treats the two the
same way. -/
structure HistoryCandidate where
  key : List Char := []
  value : List Char := []
  rid : Nat := 0
  cost : Int := 0
deriving DecidableEq, Repr

/-- The slice of `Segments` the predictor reads. -/
structure SegmentsModel where
  lastHistory : Option HistoryCandidate := Option.none
  conversionKey : List Char := []
  requestType : RequestType := RequestType.suggestion
  maxPredictionCandidatesSize : Nat := 0
deriving DecidableEq, Repr

/-- Source: `Result::SetTypesAndTokenAttributes`. -/
def Result.setTypesAndTokenAttributes (r : Result) (t : PredictionTypes)
    (a : TokenAttributes) : Result :=
  { r with
    types := t
    candidateAttributes :=
      { typingCorrection := t.typingCorrection
        realtimeConversion := t.realtime || t.realtimeTop
        spellingCorrection := a.spellingCorrection
        userDictionary := a.userDictionary
        noVariantsExpansion := a.userDictionary } }

/-- Source: `Result::SetSourceInfoForZeroQuery`. -/
def Result.setSourceInfoForZeroQuery (r : Result) (t : ZeroQueryType) : Result :=
  match t with
  | ZeroQueryType.none => { r with sourceInfo := { r.sourceInfo with zqNone := true } }
  | ZeroQueryType.numberSuffix =>
      { r with sourceInfo := { r.sourceInfo with zqNumberSuffix := true } }
  | ZeroQueryType.emoticon =>
      { r with sourceInfo := { r.sourceInfo with zqEmoticon := true } }
  | ZeroQueryType.emoji => { r with sourceInfo := { r.sourceInfo with zqEmoji := true } }
  | ZeroQueryType.bigram => { r with sourceInfo := { r.sourceInfo with zqBigram := true } }
  | ZeroQueryType.suffix => { r with sourceInfo := { r.sourceInfo with zqSuffix := true } }

/-- Source: `Result::InitializeByTokenAndTypes`. -/
def Result.initByTokenAndTypes (r : Result) (token : Token)
    (t : PredictionTypes) : Result :=
  { r.setTypesAndTokenAttributes t token.attributes with
    key := token.key
    value := token.value
    wcost := token.cost
    lid := token.lid
    rid := token.rid }

/-- Source: `kInfinity = (2 << 20)`: the cost sentinel. -/
def kInfinity : Int := 2097152

/-- Source: `DictionaryPredictor::GetHistoryKeyAndValue`: the key and value of
candidate 0 of the last history segment; both empty when there is no
such candidate (the C++ out-parameters stay empty in that case). -/
def getHistoryKeyAndValue (segments : SegmentsModel) : List Char × List Char :=
  match segments.lastHistory with
  | Option.some h => (h.key, h.value)
  | Option.none => ([], [])

/-- The `rid` of candidate 0 of the last history segment, `0` (BOS)
otherwise, as read by `SetPredictionCost` and `SetLMCost`. -/
def historyRid (segments : SegmentsModel) : Nat :=
  match segments.lastHistory with
  | Option.some h => h.rid
  | Option.none => 0

/-- The `prev_cost` computed by `SetLMCost`: the cost of candidate 0 of
the last history segment, with `5000` substituted when that stored cost
is `0`, and `0` when there is no history. -/
def previousCost (segments : SegmentsModel) : Int :=
  match segments.lastHistory with
  | Option.some h => if h.cost = 0 then 5000 else h.cost
  | Option.none => 0

/-- The external collaborators of the cost formulas:
`Connector::GetTransitionCost` and `Segmenter::GetSuffixPenalty`. -/
structure CostParams where
  transitionCost : Nat → Nat → Int
  suffixPenalty : Nat → Int

/-- Source: `DictionaryPredictor::GetLMCost`: minimum of the transition from the
history rid and from BOS, plus the word cost, plus the suffix penalty
for non-realtime results. -/
def getLMCost (p : CostParams) (r : Result) (rid : Nat) : Int :=
  min (p.transitionCost rid r.lid) (p.transitionCost 0 r.lid) + r.wcost +
    (if r.types.realtime then 0 else p.suffixPenalty r.rid)

/-- Source: `DictionaryPredictor::IsAggressiveSuggestion`.  The source compares
`query_len <= static_cast<size_t>(0.4 * key_len)`; for the sizes that
occur the double computation truncates to `2 * key_len / 5`. -/
def isAggressiveSuggestion (queryLen keyLen : Nat) (cost : Int)
    (isSuggestion : Bool) (totalCandidatesSize : Nat) : Bool :=
  isSuggestion && decide (10 ≤ totalCandidatesSize) && decide (8 ≤ keyLen) &&
    decide ((5000 : Int) ≤ cost) && decide (queryLen ≤ 2 * keyLen / 5)

/-- The `query_len` of the `SetPredictionCost` loop: the bigram key
length for `BIGRAM` results, the unigram key length otherwise. -/
def spcQueryLen (bl ul : Nat) (r : Result) : Nat :=
  if r.types.bigram then bl else ul

/-- The result as costed by the non-aggressive branch of the
`SetPredictionCost` loop:
`cost - kCostFactor * log(1.0 + max(0, key_len - query_len))`, with
the floating-point part abstracted into `lenCost` (see
`setPredictionCostLoop`). -/
def spcAssigned (p : CostParams) (lenCost : Int → Nat → Int) (rid bl ul : Nat)
    (r : Result) : Result :=
  { r with cost := lenCost (getLMCost p r rid) (r.key.length - spcQueryLen bl ul r) }

/-- The update of `realtime_cost_min`: take the freshly assigned cost
when the result is `REALTIME`, cheaper, and its key has the input key's
byte length (`result.key.size() == input_key.size()`). -/
def spcNextMin (ik : List Char) (m : Int) (r : Result) : Int :=
  if r.types.realtime = true ∧ r.cost < m ∧ byteSize r.key = byteSize ik then
    r.cost
  else m

/-- The loop body of `SetPredictionCost`.  `lenCost c d` models the
floating-point expression `static_cast<int>(c - 500 * log(1.0 + d))`
(with `d = max(0, key_len - query_len)` already truncated, as the
`size_t` subtraction in the source is); it is kept abstract because it
involves `log` on doubles.  For `d = 0` the source computes exactly `c`
(`log(1.0)` is exactly `0.0`), which theorems assume where needed.
Returns the costed results and the threaded `realtime_cost_min`. -/
def setPredictionCostLoop (p : CostParams) (lenCost : Int → Nat → Int)
    (rid : Nat) (inputKey : List Char) (bigramKeyLen unigramKeyLen : Nat)
    (isSuggestion : Bool) (n : Nat) :
    List Result → Int → List Result × Int
  | [], m => ([], m)
  | r :: rest, m =>
    if r.types.realtimeTop then
      let res := setPredictionCostLoop p lenCost rid inputKey bigramKeyLen
        unigramKeyLen isSuggestion n rest m
      (r :: res.1, res.2)
    else if isAggressiveSuggestion (spcQueryLen bigramKeyLen unigramKeyLen r)
        r.key.length (getLMCost p r rid) isSuggestion n then
      let res := setPredictionCostLoop p lenCost rid inputKey bigramKeyLen
        unigramKeyLen isSuggestion n rest m
      ({ r with cost := kInfinity } :: res.1, res.2)
    else
      let r' := spcAssigned p lenCost rid bigramKeyLen unigramKeyLen r
      let res := setPredictionCostLoop p lenCost rid inputKey bigramKeyLen
        unigramKeyLen isSuggestion n rest (spcNextMin inputKey m r')
      (r' :: res.1, res.2)

/-- After the loop, `SetPredictionCost` writes
`max(0, realtime_cost_min - 10)` into the `REALTIME_TOP` result it
remembered; since the remembered pointer is overwritten on every
`REALTIME_TOP` hit, the cost is written into the last one. -/
def setLastRealtimeTopCost (c : Int) : List Result → List Result
  | [] => []
  | r :: rest =>
    if rest.any (fun x => x.types.realtimeTop) then
      r :: setLastRealtimeTopCost c rest
    else if r.types.realtimeTop then { r with cost := c } :: rest
    else r :: rest

/-- Source: `DictionaryPredictor::SetPredictionCost` (the desktop / non-mixed
cost assignment). -/
def setPredictionCost (p : CostParams) (lenCost : Int → Nat → Int)
    (segments : SegmentsModel) (results : List Result) : List Result :=
  let rid := historyRid segments
  let inputKey := segments.conversionKey
  let historyKey := (getHistoryKeyAndValue segments).1
  let bigramKeyLen := (historyKey ++ inputKey).length
  let unigramKeyLen := inputKey.length
  let isSuggestion := segments.requestType = RequestType.suggestion
  let (costed, m) := setPredictionCostLoop p lenCost rid inputKey bigramKeyLen
    unigramKeyLen isSuggestion results.length results kInfinity
  setLastRealtimeTopCost (max 0 (m - 10)) costed

/-- A `REALTIME` (but not `REALTIME_TOP`) result whose key has the same
byte length as the input key: the results whose costs feed
`realtime_cost_min`. -/
def matchingRealtime (inputKey : List Char) (r : Result) : Prop :=
  r.types.realtime = true ∧ r.types.realtimeTop = false ∧
    byteSize r.key = byteSize inputKey

instance (inputKey : List Char) (r : Result) :
    Decidable (matchingRealtime inputKey r) := by
  unfold matchingRealtime; infer_instance

/-- The minimum cost among `REALTIME` results with the input key's byte
length, `kInfinity` when there is none: the value `realtime_cost_min`
holds after the `SetPredictionCost` loop, recomputed from the costed
list. -/
def minRealtimeMatching (inputKey : List Char) (l : List Result) : Int :=
  l.foldl
    (fun m r => if matchingRealtime inputKey r ∧ r.cost < m then r.cost else m)
    kInfinity

/-- Source: `DictionaryPredictor::SetLMCost` applied to one result (the mixed
conversion / mobile formula); `SetLMCost` maps this over the vector. -/
def setLMCostOne (p : CostParams) (isBadSuggestion : List Char → Bool)
    (segments : SegmentsModel) (r : Result) : Result :=
  let rid := historyRid segments
  let prevCost := previousCost segments
  let inputKeyLen := segments.conversionKey.length
  let cost := getLMCost p r rid
  let cost := if isBadSuggestion r.value then cost + 3453 else cost
  let cost :=
    if (r.types.unigram ∨ r.types.typingCorrection) ∧ inputKeyLen < r.key.length
    then cost + 1956 else cost
  let cost := if r.types.bigram then cost + (1347 - 800 - prevCost) else cost
  { r with cost := cost }

/-- Source: `DictionaryPredictor::SetLMCost`. -/
def setLMCost (p : CostParams) (isBadSuggestion : List Char → Bool)
    (segments : SegmentsModel) (results : List Result) : List Result :=
  results.map (setLMCostOne p isBadSuggestion segments)

/-- The cost that claim C5's words assign to a BIGRAM result under the
mixed-conversion formula: the previous-history transition component
replaced (not kept) by the default transition cost 1347, the word cost
and suffix penalty retained, the bad-suggestion penalty 3453 added when
flagged, and 800 and the previous committed cost subtracted.  Modelled
from the spec for comparison with `setLMCostOne`. -/
def claimedBigramLMCost (p : CostParams) (isBadSuggestion : List Char → Bool)
    (segments : SegmentsModel) (r : Result) : Int :=
  1347 + r.wcost + (if r.types.realtime then 0 else p.suffixPenalty r.rid) +
    (if isBadSuggestion r.value then 3453 else 0) - 800 - previousCost segments

instance (hv tv : List Char) : Decidable (∃ t, tv = hv ++ t) :=
  decidable_of_iff (hv.isPrefixOf tv = true)
    (by rw [List.isPrefixOf_iff_prefix]
        exact ⟨fun ⟨t, h⟩ => ⟨t, h.symm⟩, fun ⟨t, h⟩ => ⟨t, h.symm⟩⟩)

/-- The token filter of `PredictiveBigramLookupCallback::OnToken`: a
token is forwarded to the base callback only when its value starts with
`history_value` and is strictly longer (in bytes). -/
def bigramTokenKept (historyValue : List Char) (token : Token) : Bool :=
  decide (∃ t, token.value = historyValue ++ t) &&
    decide (byteSize historyValue < byteSize token.value)

/-- The inputs of `AddPredictionToCandidates` other than the result
vector.  `isBadSuggestion` is the external `SuggestionFilter`;
`missSpelledPos` is `GetMissSpelledPosition`, whose body lives in
`base/util` character routines outside the predictor. -/
structure EmitContext where
  mixedConversion : Bool
  inputKey : List Char
  historyKey : List Char
  historyValue : List Char
  cursorAtTail : Bool
  latinInputMode : Bool
  isBadSuggestion : List Char → Bool
  missSpelledPos : List Char → List Char → Nat

/-- The key written to an emitted candidate: for `BIGRAM` results the
`history_key` prefix is stripped (`substr(history_key.size(), ...)`). -/
def emittedKey (ctx : EmitContext) (r : Result) : List Char :=
  if r.types.bigram then dropBytes r.key (byteSize ctx.historyKey) else r.key

/-- The value written to an emitted candidate: for `BIGRAM` results the
`history_value` prefix is stripped. -/
def emittedValue (ctx : EmitContext) (r : Result) : List Char :=
  if r.types.bigram then dropBytes r.value (byteSize ctx.historyValue) else r.value

/-- The candidate constructed by the emission loop from a surviving
result (the `candidate->...` assignments of
`AddPredictionToCandidates`). -/
def buildCandidate (ctx : EmitContext) (r : Result) (key value : List Char) :
    Candidate :=
  let attrs := r.candidateAttributes
  let attrs :=
    if (attrs.spellingCorrection = false ∧ ctx.latinInputMode = true) ∨
        r.types.suffix = true then
      { attrs with noVariantsExpansion := true, noExtraDescription := true }
    else attrs
  let consumed := if attrs.partKeyConsumed then r.consumedKeySize else 0
  let attrs :=
    if attrs.partKeyConsumed ∧ ctx.cursorAtTail then
      { attrs with autoPartSuggestion := true }
    else attrs
  let attrs :=
    if r.types.typingCorrection then { attrs with typingCorrection := true }
    else attrs
  { key := key
    value := value
    contentKey := key
    contentValue := value
    lid := r.lid
    rid := r.rid
    wcost := r.wcost
    cost := r.cost
    attributes := attrs
    sourceInfo := r.sourceInfo
    consumedKeySize := consumed
    innerSegmentBoundary :=
      if r.types.realtime then r.innerSegmentBoundary else [] }

/-- The emission loop of `AddPredictionToCandidates`, iterating over the
results in the heap's pop order (nondecreasing cost).  State: `added`
(emitted so far), `addedSuffix` (`added_suffix`), `seen` (the value
de-duplication set).  Returns the emitted `(result, candidate)` pairs
together with the final value of `added`. -/
def emitLoop (ctx : EmitContext) (size : Nat) :
    List Result → Nat → Nat → List (List Char) →
      List (Result × Candidate) × Nat
  | [], added, _, _ => ([], added)
  | r :: rest, added, addedSuffix, seen =>
    if size ≤ added ∨ kInfinity ≤ r.cost then ([], added)
    else if r.types = PredictionTypes.noPrediction then
      emitLoop ctx size rest added addedSuffix seen
    else if ¬(ctx.mixedConversion = true ∧ r.key = ctx.inputKey) ∧
        ctx.isBadSuggestion r.value = true then
      emitLoop ctx size rest added addedSuffix seen
    else if ctx.mixedConversion = false ∧ r.types.realtime = false ∧
        ((r.types.bigram = true ∧ ctx.historyKey ++ ctx.inputKey = r.value) ∨
         (r.types.bigram = false ∧ ctx.inputKey = r.value)) then
      emitLoop ctx size rest added addedSuffix seen
    else
      let key := emittedKey ctx r
      let value := emittedValue ctx r
      if value ∈ seen then emitLoop ctx size rest added addedSuffix seen
      else if r.candidateAttributes.spellingCorrection = true ∧
          key ≠ ctx.inputKey ∧
          ctx.inputKey.length ≤ ctx.missSpelledPos key value + 1 then
        emitLoop ctx size rest added addedSuffix (value :: seen)
      else if r.types = PredictionTypes.suffixOnly ∧ 20 ≤ addedSuffix then
        emitLoop ctx size rest added (addedSuffix + 1) (value :: seen)
      else
        let addedSuffix' :=
          if r.types = PredictionTypes.suffixOnly then addedSuffix + 1
          else addedSuffix
        let res := emitLoop ctx size rest (added + 1) addedSuffix' (value :: seen)
        ((r, buildCandidate ctx r key value) :: res.1, res.2)

/-- The order in which `std::pop_heap` with `ResultCostLess`
(`lhs.cost > rhs.cost`, a min-heap on cost) hands results to the
emission loop: nondecreasing final cost.  Ties are popped in an
unspecified order in C++; insertion sort picks one such order. -/
def Result.costLE (a b : Result) : Prop := a.cost ≤ b.cost

instance : DecidableRel Result.costLE := fun a b => by
  unfold Result.costLE; infer_instance

instance : IsTotal Result Result.costLE :=
  ⟨fun a b => Int.le_total a.cost b.cost⟩

instance : IsTrans Result Result.costLE :=
  ⟨fun _ _ _ h h' => Int.le_trans h h'⟩

/-- Source: `DictionaryPredictor::AddPredictionToCandidates`: pop the heap in
cost order, filter, and append candidates to the conversion segment.
Returns the emitted `(source result, candidate)` pairs and the returned
boolean `added > 0`. -/
def addPredictionToCandidates (ctx : EmitContext) (maxPred : Nat)
    (results : List Result) : List (Result × Candidate) × Bool :=
  let sorted := List.insertionSort Result.costLE results
  let size := min maxPred results.length
  let res := emitLoop ctx size sorted 0 0 []
  (res.1, decide (0 < res.2))

/-- Source: `DictionaryPredictor::PredictForRequest`.  `segmentsPresent` is the
`segments == NULL` guard; `types` is the value of `GetPredictionTypes`;
`aggregated` is the result vector filled by the aggregators (which are
driven by external dictionaries and converters); `stage` is the
`SetCost` / `RemovePrediction` pass, which rewrites result costs and
types but appends no candidate.  Returns the returned boolean and the
candidates appended to `segments.conversion_segment(0)`. -/
def predictForRequest (segmentsPresent : Bool) (types : PredictionTypes)
    (aggregated : List Result) (stage : List Result → List Result)
    (ctx : EmitContext) (maxPred : Nat) : Bool × List Candidate :=
  if segmentsPresent = false then (false, [])
  else if types = PredictionTypes.noPrediction then (false, [])
  else if aggregated = [] then (false, [])
  else
    let res := addPredictionToCandidates ctx maxPred (stage aggregated)
    (res.2, res.1.map Prod.snd)

/-- The emoji-carrier bits of a `ZeroQueryEntry`. -/
structure EmojiTypeBits where
  unicode : Bool := false
  docomo : Bool := false
  softbank : Bool := false
  kddi : Bool := false
deriving DecidableEq, Repr

/-- The `available_emoji_carrier` bits of the client request. -/
structure EmojiCarriers where
  unicodeEmoji : Bool := false
  docomoEmoji : Bool := false
  softbankEmoji : Bool := false
  kddiEmoji : Bool := false
deriving DecidableEq, Repr

/-- An entry of a static zero-query table. -/
structure ZeroQueryEntry where
  type : ZeroQueryType := ZeroQueryType.none
  value : List Char := []
  emojiType : EmojiTypeBits := {}
  emojiAndroidPua : Nat := 0
deriving DecidableEq, Repr

/-- A zero-query table: `(key, entries)` records.  The source arrays are
sorted and binary-searched (`lower_bound` then an exact key check),
which on sorted data with unique keys is lookup by key. -/
def ZeroQueryTable : Type := List (List Char × List ZeroQueryEntry)

/-- Source: `DictionaryPredictor::GetZeroQueryCandidatesForKey`: find the key's
record and expand its entries, filtering emoji entries by the carrier
set (`Util::UCS4ToUTF8` of a code point is a one-character string in
this model).  Returns the `(value, type)` pairs and whether any were
produced. -/
def getZeroQueryCandidatesForKey (carrier : EmojiCarriers) (key : List Char)
    (table : ZeroQueryTable) : Bool × List (List Char × ZeroQueryType) :=
  match (table : List (List Char × List ZeroQueryEntry)).find?
      (fun e => e.1 = key) with
  | Option.none => (false, [])
  | Option.some (_, entries) =>
    let results := entries.filterMap (fun entry =>
      if entry.type ≠ ZeroQueryType.emoji then
        Option.some (entry.value, entry.type)
      else if carrier.unicodeEmoji = true ∧ entry.emojiType.unicode = true then
        Option.some (entry.value, entry.type)
      else if (carrier.docomoEmoji = true ∧ entry.emojiType.docomo = true) ∨
          (carrier.softbankEmoji = true ∧ entry.emojiType.softbank = true) ∨
          (carrier.kddiEmoji = true ∧ entry.emojiType.kddi = true) then
        Option.some ([Char.ofNat entry.emojiAndroidPua], entry.type)
      else Option.none)
    (decide (results ≠ []), results)

/-- The `Result` pushed by iteration `i` of `AppendZeroQueryToResults`:
key and value are the candidate string, type is exactly `SUFFIX`, the
source info tags the candidate's zero-query category, and the word cost
is the accumulated `cost` (`10 * i`). -/
def zeroQueryResult (c : List Char × ZeroQueryType) (lid rid : Nat)
    (cost : Int) : Result :=
  { (({} : Result).setTypesAndTokenAttributes PredictionTypes.suffixOnly
      {}).setSourceInfoForZeroQuery c.2 with
    key := c.1
    value := c.1
    wcost := cost
    lid := lid
    rid := rid }

/-- The loop of `AppendZeroQueryToResults`: `cost` starts at `0` and
grows by `kSuffixPenalty = 10` per candidate. -/
def appendZeroQueryLoop (lid rid : Nat) :
    List (List Char × ZeroQueryType) → Int → List Result
  | [], _ => []
  | c :: rest, cost =>
    zeroQueryResult c lid rid cost :: appendZeroQueryLoop lid rid rest (cost + 10)

/-- Source: `DictionaryPredictor::AppendZeroQueryToResults`. -/
def appendZeroQueryToResults (candidates : List (List Char × ZeroQueryType))
    (lid rid : Nat) (results : List Result) : List Result :=
  results ++ appendZeroQueryLoop lid rid candidates 0

/-- Source: `GetNumberHistory`: the normalized number key when the last history
candidate's value is an arabic number.  `NumberUtil::IsArabicNumber` and
`Util::FullWidthToHalfWidth` live outside the predictor and are
parameters. -/
def getNumberHistory (isArabicNumber : List Char → Bool)
    (fullWidthToHalfWidth : List Char → List Char)
    (segments : SegmentsModel) : Option (List Char) :=
  match segments.lastHistory with
  | Option.none => Option.none
  | Option.some h =>
    if isArabicNumber h.value then Option.some (fullWidthToHalfWidth h.value)
    else Option.none

/-- The external inputs of `AggregateSuffixPrediction`.
`suffixLookupResults` is the list of results the predictive lookup on
the suffix dictionary (`GetPredictiveResults` with an empty history
key) appends; the suffix dictionary is an external collaborator. -/
structure SuffixParams where
  isArabicNumber : List Char → Bool
  fullWidthToHalfWidth : List Char → List Char
  carrier : EmojiCarriers
  numberTable : ZeroQueryTable
  zeroQueryTable : ZeroQueryTable
  counterSuffixWordId : Nat
  suffixLookupResults : List Result

/-- Source: `DictionaryPredictor::AggregateNumberZeroQueryPrediction`: when the
history is an arabic number, append the number table's entries for that
key and for `"default"`, with lid = rid = the counter-suffix word id;
returns whether the number path fired. -/
def aggregateNumberZeroQueryPrediction (sp : SuffixParams)
    (segments : SegmentsModel) (results : List Result) : List Result × Bool :=
  match getNumberHistory sp.isArabicNumber sp.fullWidthToHalfWidth segments with
  | Option.none => (results, false)
  | Option.some numberKey =>
    let candsNum :=
      (getZeroQueryCandidatesForKey sp.carrier numberKey sp.numberTable).2
    let candsDefault :=
      (getZeroQueryCandidatesForKey sp.carrier "default".toList sp.numberTable).2
    (appendZeroQueryToResults candsDefault sp.counterSuffixWordId
      sp.counterSuffixWordId
      (appendZeroQueryToResults candsNum sp.counterSuffixWordId
        sp.counterSuffixWordId results), true)

/-- Source: `DictionaryPredictor::AggregateZeroQueryPrediction`: look the last
history value up in the generic zero-query table; appends with
lid = rid = 0 (EOS). -/
def aggregateZeroQueryPrediction (sp : SuffixParams)
    (segments : SegmentsModel) (results : List Result) : List Result × Bool :=
  match segments.lastHistory with
  | Option.none => (results, false)
  | Option.some h =>
    match getZeroQueryCandidatesForKey sp.carrier h.value sp.zeroQueryTable with
    | (false, _) => (results, false)
    | (true, cands) => (appendZeroQueryToResults cands 0 0 results, true)

/-- Source: `DictionaryPredictor::AggregateSuffixPrediction`.  Note the early
return: when `AggregateNumberZeroQueryPrediction` fires, the function
returns without the predictive suffix-dictionary lookup. -/
def aggregateSuffixPrediction (sp : SuffixParams) (types : PredictionTypes)
    (segments : SegmentsModel) (results : List Result) : List Result :=
  if types.suffix = false then results
  else
    let isZeroQuery := segments.conversionKey = []
    if isZeroQuery then
      match aggregateNumberZeroQueryPrediction sp segments results with
      | (results1, true) => results1
      | (results1, false) =>
        let results2 := (aggregateZeroQueryPrediction sp segments results1).1
        results2 ++ sp.suffixLookupResults
    else results ++ sp.suffixLookupResults

/-! ### Concrete instances used by witnesses and counterexamples -/

/-- A minimal non-mixed emission context: input key `"a"`, no history,
no bad suggestions, composer helpers trivial. -/
def ctxA : EmitContext :=
  { mixedConversion := false
    inputKey := ['a']
    historyKey := []
    historyValue := []
    cursorAtTail := false
    latinInputMode := false
    isBadSuggestion := fun _ => false
    missSpelledPos := fun _ _ => 0 }

/-- A plain unigram result emitted under `ctxA`. -/
def rPlain : Result :=
  { key := ['a'], value := ['b'], cost := 5, types := { unigram := true } }

/-- Source: `ctxA` with a suggestion filter that flags the value `"b"`. -/
def ctxBad : EmitContext :=
  { ctxA with isBadSuggestion := fun v => decide (v = ['b']) }

/-- A result whose key equals the input key of `ctxBad` and whose value
its suggestion filter flags. -/
def rBadExact : Result :=
  { key := ['a'], value := ['b'], cost := 0, types := { unigram := true } }

/-- A result not flagged by `ctxBad`'s suggestion filter. -/
def rGoodVal : Result :=
  { key := ['a'], value := ['c'], cost := 1, types := { unigram := true } }

/-- Source: `ctxA` with one-character history key `"h"` and history value `"H"`. -/
def ctxHist : EmitContext :=
  { ctxA with historyKey := ['h'], historyValue := ['H'] }

/-- A bigram result whose key and value extend the history key and
value of `ctxHist`. -/
def rBigramEx : Result :=
  { key := ['h', 'x'], value := ['H', 'y'], cost := 3, types := { bigram := true } }

/-- Zero transition costs and suffix penalties. -/
def costZero : CostParams :=
  { transitionCost := fun _ _ => 0, suffixPenalty := fun _ => 0 }

/-- Constant transition cost 50, zero suffix penalties. -/
def cost50 : CostParams :=
  { transitionCost := fun _ _ => 50, suffixPenalty := fun _ => 0 }

/-- Constant transition cost 1000, zero suffix penalties. -/
def cost1000 : CostParams :=
  { transitionCost := fun _ _ => 1000, suffixPenalty := fun _ => 0 }

/-- A stand-in for the length-penalty computation
`static_cast<int>(cost - 500 * log(1.0 + d))`, exact at `d = 0` (the
only point where the concrete runs below evaluate it, since their
result keys are never longer than the query). -/
def lenCostExact : Int → Nat → Int := fun c _ => c

/-- Segments with no history, conversion key `"a"`, PREDICTION mode. -/
def segsNoHist : SegmentsModel :=
  { lastHistory := Option.none
    conversionKey := ['a']
    requestType := RequestType.prediction
    maxPredictionCandidatesSize := 10 }

/-- A `REALTIME | REALTIME_TOP` result on the input key `"a"`. -/
def rTopEx : Result :=
  { key := ['a'], types := { realtime := true, realtimeTop := true } }

/-- A plain `REALTIME` result on the input key `"a"` with zero word
cost. -/
def rRealtimeEx : Result :=
  { key := ['a'], wcost := 0, types := { realtime := true } }

/-- A plain `REALTIME` result on the input key `"a"` with word cost
200. -/
def rRealtime200 : Result :=
  { key := ['a'], wcost := 200, types := { realtime := true } }

/-- Segments whose last history candidate has rid 2 and stored cost
5000. -/
def segsHist : SegmentsModel :=
  { lastHistory := Option.some { key := ['h'], value := ['H'], rid := 2, cost := 5000 }
    conversionKey := ['a']
    requestType := RequestType.suggestion
    maxPredictionCandidatesSize := 10 }

/-- A bigram result under `segsHist`. -/
def rBigramCost : Result :=
  { key := ['h', 'x'], value := ['H', 'y'], wcost := 0, lid := 1, rid := 3
    types := { bigram := true } }

/-- Suffix-aggregation inputs where the history value `"12"` is an
arabic number with a number-table entry, and the suffix dictionary
would produce the result with key `"s"`. -/
def spNum : SuffixParams :=
  { isArabicNumber := fun v => decide (v = ['1', '2'])
    fullWidthToHalfWidth := fun v => v
    carrier := {}
    numberTable :=
      [(['1', '2'], [{ type := ZeroQueryType.numberSuffix, value := ['m'] }]),
       ("default".toList, [{ type := ZeroQueryType.numberSuffix, value := ['d'] }])]
    zeroQueryTable := []
    counterSuffixWordId := 7
    suffixLookupResults := [{ key := ['s'], value := ['s'], types := { suffix := true } }] }

/-- Zero-query segments (empty conversion key) whose last history value
is `"12"`. -/
def segsNum : SegmentsModel :=
  { lastHistory := Option.some { key := ['1', '2'], value := ['1', '2'], rid := 0, cost := 1 }
    conversionKey := []
    requestType := RequestType.suggestion
    maxPredictionCandidatesSize := 10 }

/-! ### Theorems -/

theorem byteSize_cons (c : Char) (s : List Char) :
    byteSize (c :: s) = c.utf8Size + byteSize s := by
  simp [byteSize]

theorem dropBytes_append (p t : List Char) : dropBytes (p ++ t) (byteSize p) = t := by
  induction p with
  | nil => simp [byteSize, dropBytes]
  | cons c rest ih =>
    have hpos : 0 < c.utf8Size := Char.utf8Size_pos c
    have hsz : byteSize (c :: rest) = c.utf8Size + byteSize rest := byteSize_cons c rest
    obtain ⟨k, hk⟩ : ∃ k, byteSize (c :: rest) = k + 1 := by
      refine ⟨c.utf8Size + byteSize rest - 1, ?_⟩
      omega
    rw [List.cons_append, hk, dropBytes]
    have : k + 1 - c.utf8Size = byteSize rest := by omega
    rw [this, ih]

theorem setSourceInfoForZeroQuery_types (r : Result) (t : ZeroQueryType) :
    (r.setSourceInfoForZeroQuery t).types = r.types := by
  cases t <;> rfl

theorem appendZeroQueryLoop_length (lid rid : Nat)
    (cands : List (List Char × ZeroQueryType)) (c0 : Int) :
    (appendZeroQueryLoop lid rid cands c0).length = cands.length := by
  induction cands generalizing c0 with
  | nil => rfl
  | cons c rest ih => simp [appendZeroQueryLoop, ih]

theorem appendZeroQueryLoop_getElem? (lid rid : Nat)
    (cands : List (List Char × ZeroQueryType)) (c0 : Int) (i : Nat) :
    (appendZeroQueryLoop lid rid cands c0)[i]? =
      (cands[i]?).map (fun c => zeroQueryResult c lid rid (c0 + 10 * (i : Int))) := by
  induction cands generalizing c0 i with
  | nil => simp [appendZeroQueryLoop]
  | cons c rest ih =>
    cases i with
    | zero => simp [appendZeroQueryLoop]
    | succ j =>
      have harith : c0 + 10 + 10 * (j : Int) = c0 + 10 * ((j : Nat) + 1 : Nat) := by
        push_cast
        ring
      simp only [appendZeroQueryLoop, List.getElem?_cons_succ, ih, harith]

/-- C10: `AppendZeroQueryToResults` with a candidate list of length `n`
appends exactly `n` results; the `i`-th appended result has key and
value equal to the `i`-th candidate string, type exactly `SUFFIX`, the
given lid and rid, and word cost `10 * i`, so the table order is kept
as strictly increasing word costs. -/
theorem zeroQueryAppend_shape (cands : List (List Char × ZeroQueryType))
    (lid rid : Nat) (results : List Result) (i : Nat)
    (c : List Char × ZeroQueryType) (h : cands[i]? = Option.some c) :
    (appendZeroQueryToResults cands lid rid results).length =
        results.length + cands.length ∧
      ∃ r : Result,
        (appendZeroQueryToResults cands lid rid results)[results.length + i]? =
            Option.some r ∧
          r.key = c.1 ∧ r.value = c.1 ∧ r.types = PredictionTypes.suffixOnly ∧
          r.lid = lid ∧ r.rid = rid ∧ r.wcost = 10 * (i : Int) := by
  constructor
  · simp [appendZeroQueryToResults, appendZeroQueryLoop_length]
  · refine ⟨zeroQueryResult c lid rid (10 * (i : Int)), ?_, ?_, ?_, ?_, ?_, ?_, ?_⟩
    · rw [appendZeroQueryToResults,
        List.getElem?_append_right (Nat.le_add_right results.length i),
        Nat.add_sub_cancel_left, appendZeroQueryLoop_getElem?, h]
      simp
    · rfl
    · rfl
    · obtain ⟨v, t⟩ := c
      simpa [zeroQueryResult] using
        setSourceInfoForZeroQuery_types
          (({} : Result).setTypesAndTokenAttributes PredictionTypes.suffixOnly {}) t
    · rfl
    · rfl
    · rfl

/-- Witness for C10 at a concrete two-candidate table slice: the second
appended result carries word cost 10. -/
theorem zeroQueryAppend_shape_witness :
    ([(['a'], ZeroQueryType.numberSuffix), (['b'], ZeroQueryType.suffix)].length = 2) ∧
      ∃ r : Result,
        (appendZeroQueryToResults
              [(['a'], ZeroQueryType.numberSuffix), (['b'], ZeroQueryType.suffix)]
              3 4 [])[0 + 1]? = Option.some r ∧
          r.key = ['b'] ∧ r.value = ['b'] ∧ r.types = PredictionTypes.suffixOnly ∧
          r.lid = 3 ∧ r.rid = 4 ∧ r.wcost = 10 * ((1 : Nat) : Int) := by
  refine ⟨rfl, ?_⟩
  have h := zeroQueryAppend_shape
    [(['a'], ZeroQueryType.numberSuffix), (['b'], ZeroQueryType.suffix)]
    3 4 [] 1 (['b'], ZeroQueryType.suffix) (by rfl)
  simpa using h.2

theorem buildCandidate_cost (ctx : EmitContext) (r : Result) (k v : List Char) :
    (buildCandidate ctx r k v).cost = r.cost := rfl

theorem buildCandidate_key (ctx : EmitContext) (r : Result) (k v : List Char) :
    (buildCandidate ctx r k v).key = k := rfl

theorem buildCandidate_value (ctx : EmitContext) (r : Result) (k v : List Char) :
    (buildCandidate ctx r k v).value = v := rfl

/-- Every pair the emission loop produces: its result comes from the
input list, survived the `cost >= kInfinity` stop, and its candidate is
built from the (possibly bigram-stripped) key and value. -/
theorem emitLoop_shape (ctx : EmitContext) (size : Nat) :
    ∀ (l : List Result) (a as : Nat) (seen : List (List Char))
      (p : Result × Candidate), p ∈ (emitLoop ctx size l a as seen).1 →
      p.1 ∈ l ∧ p.1.cost < kInfinity ∧
        p.2 = buildCandidate ctx p.1 (emittedKey ctx p.1) (emittedValue ctx p.1) := by
  intro l
  induction l with
  | nil => intro a as seen p hp; simp [emitLoop] at hp
  | cons r rest ih =>
    intro a as seen p hp
    simp only [emitLoop] at hp
    split at hp
    · simp at hp
    next h1 =>
      split at hp
      · obtain ⟨hm, hq⟩ := ih _ _ _ _ hp
        exact ⟨List.mem_cons_of_mem _ hm, hq⟩
      split at hp
      · obtain ⟨hm, hq⟩ := ih _ _ _ _ hp
        exact ⟨List.mem_cons_of_mem _ hm, hq⟩
      split at hp
      · obtain ⟨hm, hq⟩ := ih _ _ _ _ hp
        exact ⟨List.mem_cons_of_mem _ hm, hq⟩
      split at hp
      · obtain ⟨hm, hq⟩ := ih _ _ _ _ hp
        exact ⟨List.mem_cons_of_mem _ hm, hq⟩
      split at hp
      · obtain ⟨hm, hq⟩ := ih _ _ _ _ hp
        exact ⟨List.mem_cons_of_mem _ hm, hq⟩
      split at hp
      · obtain ⟨hm, hq⟩ := ih _ _ _ _ hp
        exact ⟨List.mem_cons_of_mem _ hm, hq⟩
      · rcases List.mem_cons.mp hp with rfl | hp'
        · refine ⟨List.mem_cons_self r rest, ?_, rfl⟩
          push_neg at h1
          exact h1.2
        · obtain ⟨hm, hq⟩ := ih _ _ _ _ hp'
          exact ⟨List.mem_cons_of_mem _ hm, hq⟩

/-- The results underlying the emitted pairs form a sublist of the input
(the loop walks the list once, emitting or skipping). -/
theorem emitLoop_fst_sublist (ctx : EmitContext) (size : Nat) :
    ∀ (l : List Result) (a as : Nat) (seen : List (List Char)),
      ((emitLoop ctx size l a as seen).1.map Prod.fst).Sublist l := by
  intro l
  induction l with
  | nil => intro a as seen; simp [emitLoop]
  | cons r rest ih =>
    intro a as seen
    simp only [emitLoop]
    split
    · simp
    split
    · exact (ih _ _ _).cons r
    split
    · exact (ih _ _ _).cons r
    split
    · exact (ih _ _ _).cons r
    split
    · exact (ih _ _ _).cons r
    split
    · exact (ih _ _ _).cons r
    split
    · exact (ih _ _ _).cons r
    · simpa using (ih _ _ _).cons₂ r

/-- The final `added` counter equals its initial value plus the number
of emitted candidates (the counter is bumped exactly at `push_back`). -/
theorem emitLoop_added (ctx : EmitContext) (size : Nat) :
    ∀ (l : List Result) (a as : Nat) (seen : List (List Char)),
      (emitLoop ctx size l a as seen).2 =
        a + (emitLoop ctx size l a as seen).1.length := by
  intro l
  induction l with
  | nil => intro a as seen; simp [emitLoop]
  | cons r rest ih =>
    intro a as seen
    simp only [emitLoop]
    split
    · simp
    split
    · exact ih _ _ _
    split
    · exact ih _ _ _
    split
    · exact ih _ _ _
    split
    · exact ih _ _ _
    split
    · exact ih _ _ _
    split
    · exact ih _ _ _
    · simp only [List.length_cons]
      rw [ih]
      omega

/-- No emitted value lies in the incoming `seen` set, and the emitted
values are pairwise distinct (`seen.insert(value)` happens before any
later skip). -/
theorem emitLoop_values_nodup (ctx : EmitContext) (size : Nat) :
    ∀ (l : List Result) (a as : Nat) (seen : List (List Char)),
      (∀ p ∈ (emitLoop ctx size l a as seen).1, p.2.value ∉ seen) ∧
        ((emitLoop ctx size l a as seen).1.map (fun p => p.2.value)).Nodup := by
  intro l
  induction l with
  | nil => intro a as seen; simp [emitLoop]
  | cons r rest ih =>
    intro a as seen
    simp only [emitLoop]
    split
    · simp
    split
    · exact ih _ _ _
    split
    · exact ih _ _ _
    split
    · exact ih _ _ _
    split
    next h5 => exact ih _ _ _
    split
    next h6 =>
      obtain ⟨hnot, hnodup⟩ := ih a as (emittedValue ctx r :: seen)
      exact ⟨fun p hp => fun hmem => hnot p hp (List.mem_cons_of_mem _ hmem), hnodup⟩
    split
    next h7 =>
      obtain ⟨hnot, hnodup⟩ := ih a (as + 1) (emittedValue ctx r :: seen)
      exact ⟨fun p hp => fun hmem => hnot p hp (List.mem_cons_of_mem _ hmem), hnodup⟩
    next h5 h6 h7 =>
      obtain ⟨hnot, hnodup⟩ := ih (a + 1)
        (if r.types = PredictionTypes.suffixOnly then as + 1 else as)
        (emittedValue ctx r :: seen)
      constructor
      · intro p hp
        rcases List.mem_cons.mp hp with rfl | hp'
        · simpa [buildCandidate_value] using h5
        · exact fun hmem => hnot p hp' (List.mem_cons_of_mem _ hmem)
      · rw [List.map_cons, List.nodup_cons]
        refine ⟨?_, hnodup⟩
        intro hmem
        obtain ⟨q, hq, hqv⟩ := List.mem_map.mp hmem
        have := hnot q hq
        rw [hqv] at this
        exact this (by simp [buildCandidate_value])

/-- In non-mixed mode every result the suggestion filter flags is
skipped, regardless of its key: the `key == input_key` exemption only
applies when `mixed_conversion` holds. -/
theorem emitLoop_no_bad (ctx : EmitContext) (size : Nat)
    (hmix : ctx.mixedConversion = false) :
    ∀ (l : List Result) (a as : Nat) (seen : List (List Char)),
      ∀ p ∈ (emitLoop ctx size l a as seen).1,
        ctx.isBadSuggestion p.1.value = false := by
  intro l
  induction l with
  | nil => intro a as seen p hp; simp [emitLoop] at hp
  | cons r rest ih =>
    intro a as seen p hp
    simp only [emitLoop] at hp
    split at hp
    · simp at hp
    split at hp
    · exact ih _ _ _ p hp
    split at hp
    · exact ih _ _ _ p hp
    next h3 =>
      split at hp
      · exact ih _ _ _ p hp
      split at hp
      · exact ih _ _ _ p hp
      split at hp
      · exact ih _ _ _ p hp
      split at hp
      · exact ih _ _ _ p hp
      · rcases List.mem_cons.mp hp with rfl | hp'
        · show ctx.isBadSuggestion r.value = false
          rcases Bool.eq_false_or_eq_true (ctx.isBadSuggestion r.value) with hb | hb
          · exact absurd ⟨by simp [hmix], hb⟩ h3
          · exact hb
        · exact ih _ _ _ p hp'

/-- C2: every candidate emitted by `AddPredictionToCandidates` has
final cost strictly below the sentinel `kInfinity = 2^21`, and a result
whose cost is at least the sentinel is never emitted in that call (the
loop breaks at the first such result, and candidate costs are copied
from result costs). -/
theorem emitted_cost_lt_sentinel (ctx : EmitContext) (maxPred : Nat)
    (results : List Result) :
    ∀ p ∈ (addPredictionToCandidates ctx maxPred results).1,
      p.1.cost < kInfinity ∧ p.2.cost < kInfinity := by
  intro p hp
  simp only [addPredictionToCandidates] at hp
  obtain ⟨_, hc, hb⟩ := emitLoop_shape ctx _ _ _ _ _ p hp
  refine ⟨hc, ?_⟩
  rw [hb, buildCandidate_cost]
  exact hc

/-- Witness for C2: a concrete emitted candidate with its cost below
the sentinel. -/
theorem emitted_cost_lt_sentinel_witness :
    rPlain.cost < kInfinity ∧
      (buildCandidate ctxA rPlain (emittedKey ctxA rPlain)
          (emittedValue ctxA rPlain)).cost < kInfinity := by
  have hm : (rPlain, buildCandidate ctxA rPlain (emittedKey ctxA rPlain)
      (emittedValue ctxA rPlain)) ∈ (addPredictionToCandidates ctxA 10 [rPlain]).1 := by
    decide
  exact emitted_cost_lt_sentinel ctxA 10 [rPlain] _ hm

/-- C9: within one `AddPredictionToCandidates` call the emitted values
(after bigram prefix stripping) are pairwise distinct, enforced by the
`seen` set. -/
theorem emitted_values_distinct (ctx : EmitContext) (maxPred : Nat)
    (results : List Result) :
    ((addPredictionToCandidates ctx maxPred results).1.map
      (fun p => p.2.value)).Nodup := by
  simp only [addPredictionToCandidates]
  exact (emitLoop_values_nodup ctx _ _ 0 0 []).2

/-- C7: candidates are appended in ranked order — the sequence of
emitted candidates has nondecreasing final cost (heap pops come in
nondecreasing cost order and a filtered subsequence stays sorted). -/
theorem emitted_costs_sorted (ctx : EmitContext) (maxPred : Nat)
    (results : List Result) :
    List.Sorted (· ≤ ·)
      ((addPredictionToCandidates ctx maxPred results).1.map
        (fun p => p.2.cost)) := by
  simp only [addPredictionToCandidates]
  have hsorted : List.Sorted Result.costLE
      (List.insertionSort Result.costLE results) :=
    List.sorted_insertionSort Result.costLE results
  have hsub := emitLoop_fst_sublist ctx (min maxPred results.length)
    (List.insertionSort Result.costLE results) 0 0 []
  have hpair := List.Pairwise.sublist hsub hsorted
  rw [List.pairwise_map] at hpair
  rw [List.Sorted, List.pairwise_map]
  refine List.Pairwise.imp_of_mem ?_ hpair
  intro p q hp hq h
  obtain ⟨_, _, hbp⟩ := emitLoop_shape ctx _ _ _ _ _ p hp
  obtain ⟨_, _, hbq⟩ := emitLoop_shape ctx _ _ _ _ _ q hq
  rw [hbp, hbq, buildCandidate_cost, buildCandidate_cost]
  exact h

/-- C8: `PredictForRequest` returns true exactly when at least one
candidate was appended to the first conversion segment; on every false
path no candidate has been appended. -/
theorem predict_true_iff_emitted (segmentsPresent : Bool)
    (types : PredictionTypes) (aggregated : List Result)
    (stage : List Result → List Result) (ctx : EmitContext) (maxPred : Nat) :
    (predictForRequest segmentsPresent types aggregated stage ctx maxPred).1 = true ↔
      (predictForRequest segmentsPresent types aggregated stage ctx maxPred).2 ≠ [] := by
  simp only [predictForRequest]
  by_cases h1 : segmentsPresent = false
  · simp [h1]
  · rw [if_neg h1]
    by_cases h2 : types = PredictionTypes.noPrediction
    · simp [h2]
    · rw [if_neg h2]
      by_cases h3 : aggregated = []
      · simp [h3]
      · rw [if_neg h3]
        simp only [addPredictionToCandidates]
        rw [emitLoop_added]
        simp [List.length_pos]

/-- C4 (amended): in non-mixed-conversion mode, every result whose
value the suggestion filter flags is dropped — also when its key
equals the input key.  The `key == input_key` exemption in the source
is guarded by `mixed_conversion`. -/
theorem nonmixed_bad_never_emitted (ctx : EmitContext) (maxPred : Nat)
    (results : List Result) (hmix : ctx.mixedConversion = false) :
    ∀ p ∈ (addPredictionToCandidates ctx maxPred results).1,
      ctx.isBadSuggestion p.1.value = false := by
  intro p hp
  simp only [addPredictionToCandidates] at hp
  exact emitLoop_no_bad ctx _ hmix _ _ _ _ p hp

/-- Witness for the amended C4: a concrete emitted result in non-mixed
mode is not flagged by the suggestion filter. -/
theorem nonmixed_bad_never_emitted_witness :
    ctxBad.isBadSuggestion rGoodVal.value = false := by
  have hm : (rGoodVal, buildCandidate ctxBad rGoodVal (emittedKey ctxBad rGoodVal)
      (emittedValue ctxBad rGoodVal)) ∈
        (addPredictionToCandidates ctxBad 10 [rGoodVal]).1 := by decide
  exact nonmixed_bad_never_emitted ctxBad 10 [rGoodVal] (by decide) _ hm

/-- Counterexample to C4 as stated: in non-mixed mode a flagged result
whose key equals the input key (and which passes every other emission
filter) is still dropped — nothing is emitted. -/
theorem nonmixed_bad_exact_key_dropped :
    rBadExact.key = ctxBad.inputKey ∧
      ctxBad.isBadSuggestion rBadExact.value = true ∧
      ctxBad.mixedConversion = false ∧
      (addPredictionToCandidates ctxBad 10 [rBadExact]).1 = [] := by decide

/-- Tokens kept by `PredictiveBigramLookupCallback::OnToken` have the
history value as a value prefix (the guarantee C6 relies on). -/
theorem bigramTokenKept_starts (hv : List Char) (t : Token)
    (h : bigramTokenKept hv t = true) : ∃ s, t.value = hv ++ s := by
  rw [bigramTokenKept, Bool.and_eq_true] at h
  exact of_decide_eq_true h.1

/-- C6: for every emitted candidate originating from a BIGRAM result,
re-prefixing the emitted key with `history_key` gives the result's
pre-strip key and re-prefixing the emitted value with `history_value`
gives its pre-strip value, given the prefix property the bigram lookup
guarantees (the predictive lookup is on `history_key + input_key`, and
the bigram callback only keeps tokens whose value extends
`history_value`). -/
theorem bigram_strip_roundtrip (ctx : EmitContext) (maxPred : Nat)
    (results : List Result)
    (hpre : ∀ r ∈ results, r.types.bigram = true →
      (∃ tk, r.key = ctx.historyKey ++ tk) ∧
        ∃ tv, r.value = ctx.historyValue ++ tv) :
    ∀ p ∈ (addPredictionToCandidates ctx maxPred results).1,
      p.1.types.bigram = true →
        ctx.historyKey ++ p.2.key = p.1.key ∧
          ctx.historyValue ++ p.2.value = p.1.value := by
  intro p hp hbig
  simp only [addPredictionToCandidates] at hp
  obtain ⟨hm, _, hb⟩ := emitLoop_shape ctx _ _ _ _ _ p hp
  have hmem : p.1 ∈ results := (List.mem_insertionSort Result.costLE).mp hm
  obtain ⟨⟨tk, htk⟩, tv, htv⟩ := hpre p.1 hmem hbig
  constructor
  · rw [hb, buildCandidate_key, emittedKey, if_pos hbig, htk, dropBytes_append]
  · rw [hb, buildCandidate_value, emittedValue, if_pos hbig, htv, dropBytes_append]

/-- Witness for C6 on a concrete bigram result. -/
theorem bigram_strip_roundtrip_witness :
    ctxHist.historyKey ++ (buildCandidate ctxHist rBigramEx
        (emittedKey ctxHist rBigramEx) (emittedValue ctxHist rBigramEx)).key =
      rBigramEx.key ∧
    ctxHist.historyValue ++ (buildCandidate ctxHist rBigramEx
        (emittedKey ctxHist rBigramEx) (emittedValue ctxHist rBigramEx)).value =
      rBigramEx.value := by
  have hm : (rBigramEx, buildCandidate ctxHist rBigramEx
      (emittedKey ctxHist rBigramEx) (emittedValue ctxHist rBigramEx)) ∈
        (addPredictionToCandidates ctxHist 10 [rBigramEx]).1 := by decide
  exact bigram_strip_roundtrip ctxHist 10 [rBigramEx] (by decide) _ hm (by decide)

/-- C5 (amended): under the mixed-conversion formula a BIGRAM result's
cost is `GetLMCost` (the min-transition component is kept) plus the
bad-suggestion penalty 3453 when the value is flagged, plus the default
transition cost 1347, minus the 800 bigram bonus and the previous
committed cost (5000 substituted when the stored cost is 0); the
default transition is added on top of — not substituted for — the
previous-history transition component. -/
theorem setLMCost_bigram_formula (p : CostParams) (isBad : List Char → Bool)
    (segments : SegmentsModel) (results : List Result) (r : Result)
    (hmem : r ∈ results) (hb : r.types.bigram = true)
    (hu : r.types.unigram = false) (ht : r.types.typingCorrection = false) :
    { r with cost := getLMCost p r (historyRid segments) +
        (if isBad r.value then 3453 else 0) +
        (1347 - 800 - previousCost segments) } ∈
      setLMCost p isBad segments results := by
  have heq : setLMCostOne p isBad segments r =
      { r with cost := getLMCost p r (historyRid segments) +
        (if isBad r.value then 3453 else 0) +
        (1347 - 800 - previousCost segments) } := by
    by_cases hbad : isBad r.value = true
    · simp [setLMCostOne, hb, hu, ht, hbad]
    · rw [Bool.not_eq_true] at hbad
      simp [setLMCostOne, hb, hu, ht, hbad]
  rw [setLMCost, ← heq]
  exact List.mem_map_of_mem _ hmem

/-- Witness for the amended C5 at concrete transition cost 1000 and
previous committed cost 5000. -/
theorem setLMCost_bigram_formula_witness :
    ({ rBigramCost with cost := getLMCost cost1000 rBigramCost (historyRid segsHist) +
        (if (fun _ : List Char => false) rBigramCost.value then 3453 else 0) +
        (1347 - 800 - previousCost segsHist) } : Result) ∈
      setLMCost cost1000 (fun _ => false) segsHist [rBigramCost] :=
  setLMCost_bigram_formula cost1000 (fun _ => false) segsHist [rBigramCost]
    rBigramCost (by decide) (by decide) (by decide) (by decide)

/-- Counterexample to C5 as stated: with transition cost 1000 the code
assigns `1000 + 1347 - 800 - 5000 = -3453` to the bigram result,
whereas replacing the transition component with 1347 would give
`-4453`: the transition is kept, not replaced. -/
theorem setLMCost_bigram_not_replaced :
    (setLMCost cost1000 (fun _ => false) segsHist [rBigramCost]).map Result.cost =
        [-3453] ∧
      claimedBigramLMCost cost1000 (fun _ => false) segsHist rBigramCost = -4453 ∧
      (-3453 : Int) ≠ -4453 := by decide

theorem aggregateNumber_none (sp : SuffixParams) (segments : SegmentsModel)
    (results : List Result)
    (h : getNumberHistory sp.isArabicNumber sp.fullWidthToHalfWidth segments =
      Option.none) :
    aggregateNumberZeroQueryPrediction sp segments results = (results, false) := by
  simp [aggregateNumberZeroQueryPrediction, h]

theorem aggregateNumber_some (sp : SuffixParams) (segments : SegmentsModel)
    (results : List Result) (k : List Char)
    (h : getNumberHistory sp.isArabicNumber sp.fullWidthToHalfWidth segments =
      Option.some k) :
    (aggregateNumberZeroQueryPrediction sp segments results).2 = true := by
  simp [aggregateNumberZeroQueryPrediction, h]

/-- C3 (amended): with the SUFFIX bit enabled, the predictive lookup on
the suffix dictionary is appended in every case except when the number
zero-query path fires (zero-query mode with an arabic-number history):
then `AggregateSuffixPrediction` returns the number-table results and
skips the suffix-dictionary lookup. -/
theorem aggregateSuffix_lookup_cases (sp : SuffixParams)
    (types : PredictionTypes) (segments : SegmentsModel)
    (results : List Result) (hs : types.suffix = true) :
    (segments.conversionKey ≠ [] →
      aggregateSuffixPrediction sp types segments results =
        results ++ sp.suffixLookupResults) ∧
    (segments.conversionKey = [] →
      getNumberHistory sp.isArabicNumber sp.fullWidthToHalfWidth segments =
          Option.none →
      aggregateSuffixPrediction sp types segments results =
        (aggregateZeroQueryPrediction sp segments results).1 ++
          sp.suffixLookupResults) ∧
    (∀ k, segments.conversionKey = [] →
      getNumberHistory sp.isArabicNumber sp.fullWidthToHalfWidth segments =
          Option.some k →
      aggregateSuffixPrediction sp types segments results =
        (aggregateNumberZeroQueryPrediction sp segments results).1) := by
  refine ⟨?_, ?_, ?_⟩
  · intro hk
    simp only [aggregateSuffixPrediction]
    rw [if_neg (by simp [hs]), if_neg hk]
  · intro hk hnum
    simp only [aggregateSuffixPrediction]
    rw [if_neg (by simp [hs]), if_pos hk, aggregateNumber_none sp segments results hnum]
  · intro k hk hnum
    have hsnd := aggregateNumber_some sp segments results k hnum
    simp only [aggregateSuffixPrediction]
    rw [if_neg (by simp [hs]), if_pos hk]
    rcases hE : aggregateNumberZeroQueryPrediction sp segments results with ⟨r1, b⟩
    rw [hE] at hsnd
    simp only at hsnd
    subst hsnd
    simp

/-- Witness for the amended C3: in non-zero-query mode the suffix
lookup results are appended. -/
theorem aggregateSuffix_lookup_cases_witness :
    aggregateSuffixPrediction spNum PredictionTypes.suffixOnly segsNoHist [] =
      [] ++ spNum.suffixLookupResults :=
  (aggregateSuffix_lookup_cases spNum PredictionTypes.suffixOnly segsNoHist []
    (by decide)).1 (by decide)

/-- Counterexample to C3 as stated: with the SUFFIX bit enabled and an
arabic-number history (`"12"`) in zero-query mode, the number table
produces entries and the suffix-dictionary lookup results are *not*
appended — the claim's "in all cases" fails. -/
theorem aggregateSuffix_skips_lookup_on_number :
    (aggregateNumberZeroQueryPrediction spNum segsNum []).2 = true ∧
      ({ key := ['s'], value := ['s'], types := { suffix := true } } : Result) ∈
        spNum.suffixLookupResults ∧
      ({ key := ['s'], value := ['s'], types := { suffix := true } } : Result) ∉
        aggregateSuffixPrediction spNum PredictionTypes.suffixOnly segsNum [] := by
  decide

theorem spcNextMin_le (ik : List Char) (m : Int) (r : Result) :
    spcNextMin ik m r ≤ m := by
  rw [spcNextMin]
  split
  next h => exact le_of_lt h.2.1
  · exact le_refl m

theorem spcNextMin_le_cost (ik : List Char) (m : Int) (r : Result)
    (hmatch : matchingRealtime ik r) : spcNextMin ik m r ≤ r.cost := by
  rw [spcNextMin]
  split
  · exact le_refl r.cost
  next h =>
    rcases Int.lt_or_le r.cost m with hlt | hle
    · exact absurd ⟨hmatch.1, hlt, hmatch.2.2⟩ h
    · exact hle

theorem spcNextMin_eq_step (ik : List Char) (m : Int) (r : Result)
    (htop : r.types.realtimeTop = false) :
    spcNextMin ik m r =
      if matchingRealtime ik r ∧ r.cost < m then r.cost else m := by
  rw [spcNextMin]
  by_cases hc : r.types.realtime = true ∧ r.cost < m ∧ byteSize r.key = byteSize ik
  · rw [if_pos hc, if_pos ⟨⟨hc.1, htop, hc.2.2⟩, hc.2.1⟩]
  · rw [if_neg hc, if_neg (fun h => hc ⟨h.1.1, h.2, h.1.2.2⟩)]

theorem spcAssigned_types (p : CostParams) (lenCost : Int → Nat → Int)
    (rid bl ul : Nat) (r : Result) :
    (spcAssigned p lenCost rid bl ul r).types = r.types := rfl

section SetPredictionCostLemmas

variable (p : CostParams) (lenCost : Int → Nat → Int) (rid : Nat)
  (ik : List Char) (bl ul : Nat) (sug : Bool) (n : Nat)

/-- Source: `realtime_cost_min` never increases along the loop. -/
theorem spcLoop_snd_le :
    ∀ (l : List Result) (m : Int),
      (setPredictionCostLoop p lenCost rid ik bl ul sug n l m).2 ≤ m := by
  intro l
  induction l with
  | nil => intro m; simp [setPredictionCostLoop]
  | cons r rest ih =>
    intro m
    simp only [setPredictionCostLoop]
    split
    · exact ih m
    split
    · exact ih m
    · exact le_trans (ih _) (spcNextMin_le ik m _)

/-- The loop's final minimum is a lower bound on the cost of every
matching `REALTIME` result it outputs. -/
theorem spcLoop_min_le :
    ∀ (l : List Result) (m : Int), m ≤ kInfinity →
      ∀ r ∈ (setPredictionCostLoop p lenCost rid ik bl ul sug n l m).1,
        matchingRealtime ik r →
          (setPredictionCostLoop p lenCost rid ik bl ul sug n l m).2 ≤ r.cost := by
  intro l
  induction l with
  | nil => intro m hm r hr; simp [setPredictionCostLoop] at hr
  | cons r0 rest ih =>
    intro m hm r hr hmatch
    simp only [setPredictionCostLoop] at hr ⊢
    split
    next htop =>
      rw [if_pos htop] at hr
      rcases List.mem_cons.mp hr with rfl | hr'
      · exact absurd htop (by simp [hmatch.2.1])
      · exact ih m hm r hr' hmatch
    next htop =>
      rw [if_neg htop] at hr
      split
      next hagg =>
        rw [if_pos hagg] at hr
        rcases List.mem_cons.mp hr with rfl | hr'
        · exact le_trans (spcLoop_snd_le p lenCost rid ik bl ul sug n rest m) hm
        · exact ih m hm r hr' hmatch
      next hagg =>
        rw [if_neg hagg] at hr
        rcases List.mem_cons.mp hr with rfl | hr'
        · exact le_trans
            (spcLoop_snd_le p lenCost rid ik bl ul sug n rest _)
            (spcNextMin_le_cost ik m _ hmatch)
        · exact ih _ (le_trans (spcNextMin_le ik m _) hm) r hr' hmatch

/-- Either the loop never lowered `realtime_cost_min`, or some matching
`REALTIME` result in the output carries exactly the final minimum. -/
theorem spcLoop_achieve :
    ∀ (l : List Result) (m : Int),
      (setPredictionCostLoop p lenCost rid ik bl ul sug n l m).2 = m ∨
        ∃ r ∈ (setPredictionCostLoop p lenCost rid ik bl ul sug n l m).1,
          matchingRealtime ik r ∧
            r.cost = (setPredictionCostLoop p lenCost rid ik bl ul sug n l m).2 := by
  intro l
  induction l with
  | nil => intro m; exact Or.inl rfl
  | cons r0 rest ih =>
    intro m
    simp only [setPredictionCostLoop]
    split
    next htop =>
      rcases ih m with h | ⟨w, hw, hwm, hwc⟩
      · exact Or.inl h
      · exact Or.inr ⟨w, List.mem_cons_of_mem _ hw, hwm, hwc⟩
    next htop =>
      split
      next hagg =>
        rcases ih m with h | ⟨w, hw, hwm, hwc⟩
        · exact Or.inl h
        · exact Or.inr ⟨w, List.mem_cons_of_mem _ hw, hwm, hwc⟩
      next hagg =>
        have htop' : r0.types.realtimeTop = false := by
          revert htop; cases r0.types.realtimeTop <;> simp
        rcases ih (spcNextMin ik m (spcAssigned p lenCost rid bl ul r0)) with
          h | ⟨w, hw, hwm, hwc⟩
        · by_cases hc : (spcAssigned p lenCost rid bl ul r0).types.realtime = true ∧
              (spcAssigned p lenCost rid bl ul r0).cost < m ∧
              byteSize (spcAssigned p lenCost rid bl ul r0).key = byteSize ik
          · refine Or.inr ⟨spcAssigned p lenCost rid bl ul r0,
              List.mem_cons_self _ _, ⟨hc.1, ?_, hc.2.2⟩, ?_⟩
            · rw [spcAssigned_types]; exact htop'
            · rw [h, spcNextMin, if_pos hc]
          · left
            rw [h, spcNextMin, if_neg hc]
        · exact Or.inr ⟨w, List.mem_cons_of_mem _ hw, hwm, hwc⟩

/-- The loop rewrites costs but neither adds nor removes `REALTIME_TOP`
results. -/
theorem spcLoop_countTop :
    ∀ (l : List Result) (m : Int),
      (setPredictionCostLoop p lenCost rid ik bl ul sug n l m).1.countP
          (fun r => r.types.realtimeTop) =
        l.countP (fun r => r.types.realtimeTop) := by
  intro l
  induction l with
  | nil => intro m; rfl
  | cons r0 rest ih =>
    intro m
    simp only [setPredictionCostLoop]
    split
    · simp [List.countP_cons, ih m]
    split
    · simp [List.countP_cons, ih m]
    · simp [List.countP_cons, ih _, spcAssigned_types]

/-- The threaded `realtime_cost_min` equals the fold of the min-update
over the costed output (the fold underlying `minRealtimeMatching`). -/
theorem spcLoop_snd_eq_fold :
    ∀ (l : List Result) (m : Int), m ≤ kInfinity →
      (setPredictionCostLoop p lenCost rid ik bl ul sug n l m).2 =
        (setPredictionCostLoop p lenCost rid ik bl ul sug n l m).1.foldl
          (fun acc r => if matchingRealtime ik r ∧ r.cost < acc then r.cost else acc)
          m := by
  intro l
  induction l with
  | nil => intro m hm; rfl
  | cons r0 rest ih =>
    intro m hm
    simp only [setPredictionCostLoop]
    split
    next htop =>
      simp only [List.foldl_cons]
      have hstep : (if matchingRealtime ik r0 ∧ r0.cost < m then r0.cost else m) = m := by
        rw [if_neg]
        intro h
        rw [h.1.2.1] at htop
        exact Bool.noConfusion htop
      rw [hstep]
      exact ih m hm
    next htop =>
      split
      next hagg =>
        simp only [List.foldl_cons]
        have hstep : (if matchingRealtime ik { r0 with cost := kInfinity } ∧
            ({ r0 with cost := kInfinity } : Result).cost < m then
              ({ r0 with cost := kInfinity } : Result).cost
            else m) = m := by
          rw [if_neg]
          intro h
          exact absurd h.2 (Int.not_lt.mpr hm)
        rw [hstep]
        exact ih m hm
      next hagg =>
        simp only [List.foldl_cons]
        have htop' : r0.types.realtimeTop = false := by
          revert htop; cases r0.types.realtimeTop <;> simp
        have htopA : (spcAssigned p lenCost rid bl ul r0).types.realtimeTop = false := by
          rw [spcAssigned_types]; exact htop'
        rw [← spcNextMin_eq_step ik m _ htopA]
        exact ih _ (le_trans (spcNextMin_le ik m _) hm)

/-- With the initial `kInfinity`, the loop's final minimum is exactly
`minRealtimeMatching` of its output. -/
theorem spcLoop_snd_eq_min (l : List Result) :
    (setPredictionCostLoop p lenCost rid ik bl ul sug n l kInfinity).2 =
      minRealtimeMatching ik
        (setPredictionCostLoop p lenCost rid ik bl ul sug n l kInfinity).1 := by
  simp only [minRealtimeMatching]
  exact spcLoop_snd_eq_fold p lenCost rid ik bl ul sug n l kInfinity (le_refl _)

end SetPredictionCostLemmas

theorem setLast_mem_of_not_top (c : Int) :
    ∀ (l : List Result) (r : Result), r ∈ setLastRealtimeTopCost c l →
      r.types.realtimeTop = false → r ∈ l := by
  intro l
  induction l with
  | nil => intro r hr _; simp [setLastRealtimeTopCost] at hr
  | cons r0 rest ih =>
    intro r hr htop
    simp only [setLastRealtimeTopCost] at hr
    split at hr
    · rcases List.mem_cons.mp hr with rfl | hr'
      · exact List.mem_cons_self _ _
      · exact List.mem_cons_of_mem _ (ih r hr' htop)
    · split at hr
      next hr0 =>
        rcases List.mem_cons.mp hr with rfl | hr'
        · exact absurd htop (by simp [hr0])
        · exact List.mem_cons_of_mem _ hr'
      · exact hr

theorem setLast_mem_of_not_top' (c : Int) :
    ∀ (l : List Result) (r : Result), r ∈ l → r.types.realtimeTop = false →
      r ∈ setLastRealtimeTopCost c l := by
  intro l
  induction l with
  | nil => intro r hr _; exact absurd hr (List.not_mem_nil r)
  | cons r0 rest ih =>
    intro r hr htop
    simp only [setLastRealtimeTopCost]
    split
    · rcases List.mem_cons.mp hr with rfl | hr'
      · exact List.mem_cons_self _ _
      · exact List.mem_cons_of_mem _ (ih r hr' htop)
    · split
      next hr0 =>
        rcases List.mem_cons.mp hr with rfl | hr'
        · exact absurd hr0 (by simp [htop])
        · exact List.mem_cons_of_mem _ hr'
      · exact hr

/-- When the input holds exactly one `REALTIME_TOP` result, every
`REALTIME_TOP` result after `setLastRealtimeTopCost` carries the
written cost. -/
theorem setLast_top_cost (c : Int) :
    ∀ (l : List Result), l.countP (fun r => r.types.realtimeTop) = 1 →
      ∀ t ∈ setLastRealtimeTopCost c l, t.types.realtimeTop = true → t.cost = c := by
  intro l
  induction l with
  | nil => intro _ t ht _; simp [setLastRealtimeTopCost] at ht
  | cons r0 rest ih =>
    intro hcount t ht htop
    simp only [setLastRealtimeTopCost] at ht
    split at ht
    next hany =>
      have hpos : 0 < rest.countP (fun r => r.types.realtimeTop) := by
        obtain ⟨x, hx, hxt⟩ := List.any_eq_true.mp hany
        exact List.countP_pos_iff.mpr ⟨x, hx, hxt⟩
      have hcr : rest.countP (fun r => r.types.realtimeTop) = 1 ∧
          r0.types.realtimeTop = false := by
        rw [List.countP_cons] at hcount
        cases h0 : r0.types.realtimeTop with
        | false => simp [h0] at hcount; exact ⟨hcount, rfl⟩
        | true =>
          have hone : rest.countP (fun r => r.types.realtimeTop) + 1 = 1 := by
            simpa [h0] using hcount
          omega
      rcases List.mem_cons.mp ht with rfl | ht'
      · exact absurd htop (by simp [hcr.2])
      · exact ih hcr.1 t ht' htop
    next hany =>
      have hnone : ∀ x ∈ rest, x.types.realtimeTop = false := by
        intro x hx
        by_contra hxx
        exact hany (List.any_eq_true.mpr ⟨x, hx, by simpa using hxx⟩)
      split at ht
      next hr0 =>
        rcases List.mem_cons.mp ht with rfl | ht'
        · rfl
        · exact absurd htop (by simp [hnone t ht'])
      next hr0 =>
        rcases List.mem_cons.mp ht with rfl | ht'
        · exact absurd htop hr0
        · exact absurd htop (by simp [hnone t ht'])

/-- Source: `setLastRealtimeTopCost` only rewrites the cost of a `REALTIME_TOP`
result, which the minimum over matching `REALTIME` results ignores. -/
theorem setLast_fold (ik : List Char) (c : Int) :
    ∀ (l : List Result) (m : Int),
      (setLastRealtimeTopCost c l).foldl
          (fun acc r => if matchingRealtime ik r ∧ r.cost < acc then r.cost else acc)
          m =
        l.foldl
          (fun acc r => if matchingRealtime ik r ∧ r.cost < acc then r.cost else acc)
          m := by
  intro l
  induction l with
  | nil => intro m; rfl
  | cons r0 rest ih =>
    intro m
    simp only [setLastRealtimeTopCost]
    split
    · simp only [List.foldl_cons]
      exact ih _
    · split
      next hr0 =>
        simp only [List.foldl_cons]
        have h1 : (if matchingRealtime ik { r0 with cost := c } ∧
            ({ r0 with cost := c } : Result).cost < m then
              ({ r0 with cost := c } : Result).cost
            else m) = m := by
          rw [if_neg]
          intro h
          have h2 : r0.types.realtimeTop = false := h.1.2.1
          rw [h2] at hr0
          exact Bool.noConfusion hr0
        have h3 : (if matchingRealtime ik r0 ∧ r0.cost < m then r0.cost else m) = m := by
          rw [if_neg]
          intro h
          rw [h.1.2.1] at hr0
          exact Bool.noConfusion hr0
        rw [h1, h3]
      · rfl

theorem setLast_minRealtimeMatching (ik : List Char) (c : Int) (l : List Result) :
    minRealtimeMatching ik (setLastRealtimeTopCost c l) = minRealtimeMatching ik l := by
  simp only [minRealtimeMatching]
  exact setLast_fold ik c l kInfinity

section SPCMain

variable (p : CostParams) (lenCost : Int → Nat → Int) (rid : Nat)
  (ik : List Char) (bl ul : Nat) (sug : Bool) (n : Nat)

/-- The combined effect of the `SetPredictionCost` loop followed by the
`REALTIME_TOP` write, stated over the loop's raw arguments. -/
theorem spcLoop_then_setLast (results : List Result)
    (hone : results.countP (fun r => r.types.realtimeTop) = 1) :
    ∀ t ∈ setLastRealtimeTopCost
        (max 0 ((setPredictionCostLoop p lenCost rid ik bl ul sug n results kInfinity).2 - 10))
        (setPredictionCostLoop p lenCost rid ik bl ul sug n results kInfinity).1,
      t.types.realtimeTop = true →
        t.cost = max 0 (minRealtimeMatching ik
            (setLastRealtimeTopCost
              (max 0 ((setPredictionCostLoop p lenCost rid ik bl ul sug n results kInfinity).2 - 10))
              (setPredictionCostLoop p lenCost rid ik bl ul sug n results kInfinity).1) - 10) ∧
        ((∀ r' ∈ setLastRealtimeTopCost
              (max 0 ((setPredictionCostLoop p lenCost rid ik bl ul sug n results kInfinity).2 - 10))
              (setPredictionCostLoop p lenCost rid ik bl ul sug n results kInfinity).1,
            matchingRealtime ik r' → 0 < r'.cost) →
          ∀ r ∈ setLastRealtimeTopCost
              (max 0 ((setPredictionCostLoop p lenCost rid ik bl ul sug n results kInfinity).2 - 10))
              (setPredictionCostLoop p lenCost rid ik bl ul sug n results kInfinity).1,
            matchingRealtime ik r → t.cost < r.cost) := by
  intro t ht htop
  set L := setPredictionCostLoop p lenCost rid ik bl ul sug n results kInfinity with hL
  set out := setLastRealtimeTopCost (max 0 (L.2 - 10)) L.1 with hout
  have hcnt : L.1.countP (fun r => r.types.realtimeTop) = 1 := by
    rw [hL, spcLoop_countTop]
    exact hone
  have hcost : t.cost = max 0 (L.2 - 10) :=
    setLast_top_cost (max 0 (L.2 - 10)) L.1 hcnt t ht htop
  have hmin : minRealtimeMatching ik out = L.2 := by
    rw [hout, setLast_minRealtimeMatching, hL, ← spcLoop_snd_eq_min]
  refine ⟨by rw [hmin]; exact hcost, ?_⟩
  intro hpos r hr hmatch
  have hrc : r ∈ L.1 := setLast_mem_of_not_top _ _ r hr hmatch.2.1
  rw [hL] at hrc
  have hge : L.2 ≤ r.cost := by
    rw [hL]
    exact spcLoop_min_le p lenCost rid ik bl ul sug n results kInfinity (le_refl _)
      r hrc hmatch
  have hach : L.2 = kInfinity ∨
      ∃ w ∈ L.1, matchingRealtime ik w ∧ w.cost = L.2 := by
    rw [hL]
    exact spcLoop_achieve p lenCost rid ik bl ul sug n results kInfinity
  rcases hach with hEq | ⟨w, hw, hwm, hwc⟩
  · rw [hcost, hEq]
    rw [hEq] at hge
    have hk : kInfinity = 2097152 := rfl
    have hmx : max (0 : Int) (kInfinity - 10) = kInfinity - 10 := by decide
    rw [hmx]
    omega
  · have hw_out : w ∈ out := by
      rw [hout]
      exact setLast_mem_of_not_top' _ _ w hw hwm.2.1
    have hwpos : 0 < w.cost := hpos w hw_out hwm
    have hmpos : 0 < L.2 := hwc ▸ hwpos
    rw [hcost]
    rcases max_choice 0 (L.2 - 10) with hmx | hmx <;> rw [hmx] <;> omega

end SPCMain

/-- C1 (amended): in the desktop (non-mixed) cost assignment with
exactly one `REALTIME_TOP` result present, `SetPredictionCost` sets its
final cost to `max(0, min_realtime_cost - 10)`, where
`min_realtime_cost` is the minimum final cost among `REALTIME` results
whose key byte length equals the input key's
(`result.key.size() == input_key.size()`); consequently the
`REALTIME_TOP` cost is strictly less than the cost of every such
`REALTIME` result *provided all such costs are positive* — when the
minimum is `≤ 0`, the clamp `max(0, ·)` breaks strictness. -/
theorem setPredictionCost_realtimeTop (p : CostParams)
    (lenCost : Int → Nat → Int) (segments : SegmentsModel)
    (results : List Result)
    (hone : results.countP (fun r => r.types.realtimeTop) = 1) :
    ∀ t ∈ setPredictionCost p lenCost segments results,
      t.types.realtimeTop = true →
        t.cost = max 0 (minRealtimeMatching segments.conversionKey
            (setPredictionCost p lenCost segments results) - 10) ∧
        ((∀ r' ∈ setPredictionCost p lenCost segments results,
            matchingRealtime segments.conversionKey r' → 0 < r'.cost) →
          ∀ r ∈ setPredictionCost p lenCost segments results,
            matchingRealtime segments.conversionKey r → t.cost < r.cost) := by
  intro t ht htop
  simp only [setPredictionCost] at ht ⊢
  exact spcLoop_then_setLast p lenCost _ _ _ _ _ _ results hone t ht htop

/-- Witness for the amended C1: transition cost 50 everywhere puts the
matching `REALTIME` result at cost 50, the `REALTIME_TOP` result at
`max(0, 50 - 10) = 40`, and dominance holds. -/
theorem setPredictionCost_realtimeTop_witness :
    ({ rTopEx with cost := 40 } : Result).cost =
        max 0 (minRealtimeMatching segsNoHist.conversionKey
          (setPredictionCost cost50 lenCostExact segsNoHist [rTopEx, rRealtimeEx]) - 10) ∧
      ({ rTopEx with cost := 40 } : Result).cost <
        ({ rRealtimeEx with cost := 50 } : Result).cost := by
  have h := setPredictionCost_realtimeTop cost50 lenCostExact segsNoHist
    [rTopEx, rRealtimeEx] (by decide) ({ rTopEx with cost := 40 })
    (by decide) (by decide)
  exact ⟨h.1, h.2 (by decide) ({ rRealtimeEx with cost := 50 }) (by decide) (by decide)⟩

/-- Counterexample to C1's dominance consequent as stated: with zero
transition costs and word costs, the matching `REALTIME` result gets
final cost 0 and the `REALTIME_TOP` result gets `max(0, 0 - 10) = 0`,
so its cost is *not* strictly less. -/
theorem setPredictionCost_dominance_fails_at_zero :
    ({ rRealtimeEx with cost := 0 } : Result) ∈
        setPredictionCost costZero lenCostExact segsNoHist [rTopEx, rRealtimeEx] ∧
      ({ rRealtimeEx with cost := 0 } : Result).types.realtime = true ∧
      ({ rRealtimeEx with cost := 0 } : Result).types.realtimeTop = false ∧
      ({ rRealtimeEx with cost := 0 } : Result).key.length =
        segsNoHist.conversionKey.length ∧
      byteSize ({ rRealtimeEx with cost := 0 } : Result).key =
        byteSize segsNoHist.conversionKey ∧
      ({ rTopEx with cost := 0 } : Result) ∈
        setPredictionCost costZero lenCostExact segsNoHist [rTopEx, rRealtimeEx] ∧
      ({ rTopEx with cost := 0 } : Result).types.realtimeTop = true ∧
      ¬(({ rTopEx with cost := 0 } : Result).cost <
          ({ rRealtimeEx with cost := 0 } : Result).cost) := by
  decide

end MozcPredictor
